import Mathlib

set_option maxRecDepth 8000

/- Shallow embedding of src/ddlmod.go (package sqlite): a character-level
   parser for CREATE TABLE statements, a mutable DDL model (head, fields,
   columns) and its edit operations.

   Go strings are modelled as lists of characters.  The Go code reads one
   byte at a time (rune(l.input[l.pos])), so the model is faithful on byte
   strings; all concrete inputs considered here are ASCII, where bytes and
   characters agree.  sql.NullString / NullBool / NullInt64 are modelled as
   Option.  Functions returning (T, error) become Except String T.  The two
   skip loops of the parser can fail to terminate in Go; they are modelled
   both directly (fuel-indexed skipLoop) and by a totalization (dropUntil)
   that returns none exactly on the diverging inputs (proved below). -/

abbrev Str := List Char

def nulC : Char := Char.ofNat 0

def bqC : Char := Char.ofNat 96

def dqC : Char := Char.ofNat 34

def sqC : Char := Char.ofNat 39

/-- unicode.IsSpace restricted to the Latin-1 range (enough for byte inputs). -/
def isSpaceGo (c : Char) : Bool :=
  c == ' ' || c == '\t' || c == '\n' || c == Char.ofNat 11 || c == Char.ofNat 12 ||
    c == '\r' || c == Char.ofNat 133 || c == Char.ofNat 160

/-- strings.ToUpper (ASCII range). -/
def toUpperStr (s : Str) : Str := s.map Char.toUpper

/-- strings.HasPrefix(s, pre). -/
def strStarts (s pre : Str) : Bool := pre.isPrefixOf s

/-- strings.Contains(s, sub). -/
def strContains : Str → Str → Bool
  | [], sub => sub.isEmpty
  | c :: cs, sub => sub.isPrefixOf (c :: cs) || strContains cs sub

/-- strings.EqualFold (ASCII simple fold). -/
def equalFold (a b : Str) : Bool := toUpperStr a == toUpperStr b

def trimLeftBy (p : Char → Bool) (l : Str) : Str := l.dropWhile p

def trimRightBy (p : Char → Bool) (l : Str) : Str := (l.reverse.dropWhile p).reverse

/-- strings.Trim-style trimming by a character predicate on both ends. -/
def trimBy (p : Char → Bool) (l : Str) : Str := trimRightBy p (trimLeftBy p l)

/-- strings.TrimSpace. -/
def trimSpace (l : Str) : Str := trimBy isSpaceGo l

/-- cutset of strings.Trim(s, "`'\""). -/
def isQuoteCut (c : Char) : Bool := c == bqC || c == sqC || c == dqC

/-- cutset of strings.Trim(s, "()"). -/
def isParenCut (c : Char) : Bool := c == '(' || c == ')'

def goFieldsAux : Str → Str → List Str
  | [], acc => if acc.isEmpty then [] else [acc.reverse]
  | c :: cs, acc =>
    if isSpaceGo c then
      (if acc.isEmpty then goFieldsAux cs [] else acc.reverse :: goFieldsAux cs [])
    else goFieldsAux cs (c :: acc)

/-- strings.Fields: split on whitespace runs, dropping empty pieces. -/
def goFields (s : Str) : List Str := goFieldsAux s []

/-- strings.Join(xs, sep). -/
def joinSep (sep : Str) : List Str → Str
  | [] => []
  | [x] => x
  | x :: xs => x ++ sep ++ joinSep sep xs

/-- strings.SplitN(s, sep, 2): the pieces before and after the first
occurrence of sep, or none when sep does not occur (SplitN then returns
the one-element slice [s]). -/
def splitFirst (sep : Str) : Str → Option (Str × Str)
  | [] => if sep.isPrefixOf ([] : Str) then some ([], []) else none
  | c :: cs =>
    if sep.isPrefixOf (c :: cs) then some ([], (c :: cs).drop sep.length)
    else (splitFirst sep cs).map fun p => (c :: p.1, p.2)

/-- strings.Split(s, sep) for a one-character separator. -/
def splitOnChar (sep : Char) : Str → List Str
  | [] => [[]]
  | c :: cs =>
    if c = sep then [] :: splitOnChar sep cs
    else
      match splitOnChar sep cs with
      | [] => [[c]]
      | h :: t => (c :: h) :: t

def digitsValAux : Str → Nat → Option Nat
  | [], acc => some acc
  | c :: cs, acc =>
    if c.isDigit then digitsValAux cs (acc * 10 + (c.toNat - 48)) else none

def atoiCore (neg : Bool) (ds : Str) : Option Int :=
  match ds with
  | [] => none
  | _ =>
    match digitsValAux ds 0 with
    | none => none
    | some k =>
      if neg then (if k ≤ 2 ^ 63 then some (-(k : Int)) else none)
      else (if k < 2 ^ 63 then some ((k : Int)) else none)

/-- strconv.Atoi (64-bit int range; sign then decimal digits only). -/
def atoi : Str → Option Int
  | [] => none
  | c :: cs =>
    if c = '+' then atoiCore false cs
    else if c = '-' then atoiCore true cs
    else atoiCore false (c :: cs)

/-- strings.Replace(s, pat, repl, 1): replace the first occurrence only. -/
def replaceFirst (pat repl : Str) : Str → Str
  | [] => if pat.isPrefixOf ([] : Str) then repl else []
  | c :: cs =>
    if pat.isPrefixOf (c :: cs) then repl ++ (c :: cs).drop pat.length
    else c :: replaceFirst pat repl cs

/- ===== Scanner (Lexer.next / Lexer.peek).  The cursor-into-a-buffer state
   is represented by the not-yet-consumed suffix of the input. ===== -/

/-- Lexer.peek: the character at the cursor, or the sentinel 0 at the end. -/
def lexPeek : Str → Char
  | [] => nulC
  | c :: _ => c

/-- Lexer.next: peek plus advancing; at the end the state does not move. -/
def lexNext : Str → Char × Str
  | [] => (nulC, [])
  | c :: cs => (c, cs)

def errUnterminatedString : String := "unterminated string"

def errUnterminatedTable : String := "unterminated table definition"

def errInvalidDDL : String := "invalid DDL"

/-- Marker of the totalized model for inputs on which the Go skip loops
run forever (see skipLoop and the C3 theorems). -/
def errNontermination : String := "nontermination"

/-- Direct model of the skip loops `for !stop(peek()) { next() }` of
parseTableName and parseTableFields, indexed by fuel: none means the loop
has not stopped within the given number of iterations. -/
def skipLoop (stop : Char → Bool) : Nat → Str → Option Str
  | 0, _ => none
  | n + 1, l => if stop (lexPeek l) then some l else skipLoop stop n (lexNext l).2

/-- Totalization of the skip loops: none exactly on the inputs where the
Go loop diverges (proved in skipLoop_agrees_some / skipLoop_none_iff). -/
def dropUntil (stop : Char → Bool) : Str → Option Str
  | [] => none
  | c :: cs => if stop c then some (c :: cs) else dropUntil stop cs

def isQuoteChar (c : Char) : Bool := c == bqC || c == dqC || c == sqC

def isOpenParen (c : Char) : Bool := c == '('

/-- Loop body of Lexer.parseString after the opening quote was consumed:
read until the same quote recurs; the sentinel (end of input, or a NUL
character, which Go cannot distinguish from it) is an error. -/
def parseStringAux (q : Char) : Str → Except String (Str × Str)
  | [] => .error errUnterminatedString
  | c :: cs =>
    if c = nulC then .error errUnterminatedString
    else if c = q then .ok ([], cs)
    else
      match parseStringAux q cs with
      | .ok (s, r) => .ok (c :: s, r)
      | .error e => .error e

/-- Lexer.parseString: consume the opening quote, then scan to its mate. -/
def parseStringGo : Str → Except String (Str × Str)
  | [] => .error errUnterminatedString
  | q :: cs => parseStringAux q cs

/-- Parser.parseTableName: skip to the first quote character, then extract
the quoted name.  On inputs with no quote character the Go loop never
terminates (errNontermination in this totalized model). -/
def parseTableName (l : Str) : Except String (Str × Str) :=
  match dropUntil isQuoteChar l with
  | none => .error errNontermination
  | some l' => parseStringGo l'

/-- Main loop of Parser.parseTableFields, scanning the table body with a
bracket-nesting counter; entered with level 1 just after the opening '('.
A level-1 comma flushes the current field; the ')' taking the level to 0
flushes a nonempty current field and stops; the sentinel is an error. -/
def fieldsLoop : Str → Nat → Str → List Str → Except String (List Str × Str)
  | [], _, _, _ => .error errUnterminatedTable
  | c :: cs, level, cur, acc =>
    if c = nulC then .error errUnterminatedTable
    else if c = '(' then fieldsLoop cs (level + 1) (cur ++ [c]) acc
    else if c = ')' then
      (if level = 1 then .ok (acc ++ (if cur.isEmpty then [] else [trimSpace cur]), cs)
       else fieldsLoop cs (level - 1) (cur ++ [c]) acc)
    else if c = ',' ∧ level = 1 then fieldsLoop cs 1 [] (acc ++ [trimSpace cur])
    else fieldsLoop cs level (cur ++ [c]) acc

/-- Parser.parseTableFields: skip to the opening '(' (the Go loop diverges
when there is none), consume it, and run the nesting-counter loop. -/
def parseTableFields (l : Str) : Except String (List Str × Str) :=
  match dropUntil isOpenParen l with
  | none => .error errNontermination
  | some l' => fieldsLoop (l'.drop 1) 1 [] []

def kwCREATETABLE : Str := "CREATE TABLE".data

def kwCREATEINDEX : Str := "CREATE INDEX".data

def kwPRIMARYKEY : Str := "PRIMARY KEY".data

def kwCHECK : Str := "CHECK".data

def kwCONSTRAINT : Str := "CONSTRAINT".data

def kwNOTNULL : Str := "NOT NULL".data

def kwUNIQUE : Str := "UNIQUE".data

def kwDEFAULT : Str := "DEFAULT".data

def kwNULL : Str := "NULL".data

def kwGENERATED : Str := "GENERATED ALWAYS AS".data

/-- migrator.ColumnType, restricted to the fields the code assigns. -/
structure ColumnType where
  NameValue : Option Str
  DataTypeValue : Option Str
  ColumnTypeValue : Option Str
  PrimaryKeyValue : Option Bool
  UniqueValue : Option Bool
  NullableValue : Option Bool
  DefaultValueValue : Option Str
  LengthValue : Option Int
deriving DecidableEq

/-- Clause test of parseColumns: case-insensitive prefix PRIMARY KEY /
CHECK / CONSTRAINT. -/
def clauseSkip (f : Str) : Bool :=
  strStarts (toUpperStr f) kwPRIMARYKEY || strStarts (toUpperStr f) kwCHECK ||
    strStarts (toUpperStr f) kwCONSTRAINT

/-- Body of the parseColumns loop for one recognized column entry, with
first token p0, second token p1 and remaining tokens ps. -/
def mkColumnGo (p0 p1 : Str) (ps : List Str) : ColumnType :=
  let rest := joinSep [' '] ps
  let restU := toUpperStr rest
  let dflt : Option Str :=
    if strContains restU kwDEFAULT then
      match splitFirst kwDEFAULT rest with
      | some (_, after) =>
        let dv := trimSpace after
        if equalFold dv kwNULL then none else some (trimBy isParenCut dv)
      | none => none
    else none
  let tl : Str × Option Int :=
    if strContains p1 ['('] then
      match splitOnChar '(' p1 with
      | b :: inner :: _ =>
        (match atoi (trimRightBy (fun c => c == ')') inner) with
         | some k => (b, some k)
         | none => (p1, none))
      | _ => (p1, none)
    else (p1, none)
  { NameValue := some (trimBy isQuoteCut p0)
    DataTypeValue := some tl.1
    ColumnTypeValue := some p1
    PrimaryKeyValue := some (strContains restU kwPRIMARYKEY)
    UniqueValue := some (strContains restU kwUNIQUE)
    NullableValue := some (!strContains restU kwNOTNULL)
    DefaultValueValue := dflt
    LengthValue := tl.2 }

/-- One iteration of Parser.parseColumns: none when the entry is skipped
(table-level clause, or fewer than two whitespace tokens). -/
def parseColumnField (field : Str) : Option ColumnType :=
  let f := trimSpace field
  if clauseSkip f then none
  else
    match goFields f with
    | p0 :: p1 :: ps => some (mkColumnGo p0 p1 ps)
    | _ => none

/-- Parser.parseColumns (its error result is always nil in the source). -/
def parseColumns (fs : List Str) : List ColumnType := fs.filterMap parseColumnField

/-- The ddl aggregate: header text, raw field entries, column descriptors. -/
structure ddl where
  head : Str
  fields : List Str
  columns : List ColumnType
deriving DecidableEq

def headPre : Str := "CREATE TABLE `".data

/-- fmt.Sprintf("CREATE TABLE `%s`", name). -/
def fmtHead (nm : Str) : Str := headPre ++ nm ++ [bqC]

/-- One iteration of the parseDDL driver loop on statement s, with current
result r: CREATE TABLE statements rebuild the whole result, CREATE INDEX
statements are skipped, anything else is invalid DDL. -/
def parseDDLStep (r : ddl) (s : Str) : Except String ddl :=
  if strStarts (toUpperStr s) kwCREATETABLE then
    match parseTableName s with
    | .error e => .error e
    | .ok (nm, r1) =>
      match parseTableFields r1 with
      | .error e => .error e
      | .ok (fs, _) => .ok ⟨fmtHead nm, fs, parseColumns fs⟩
  else if strStarts (toUpperStr s) kwCREATEINDEX then .ok r
  else .error errInvalidDDL

def parseDDLGo : List Str → ddl → Except String ddl
  | [], r => .ok r
  | s :: ss, r =>
    match parseDDLStep r s with
    | .error e => .error e
    | .ok r' => parseDDLGo ss r'

/-- parseDDL(strs...): fold the driver step over the statements, starting
from the zero ddl value. -/
def parseDDL (strs : List Str) : Except String ddl := parseDDLGo strs ⟨[], [], []⟩

/-- ddl.compile: the header alone when there are no fields, otherwise
"head (f1,f2,...)" with the fields joined by commas. -/
def ddl.compile (d : ddl) : Str :=
  if d.fields.isEmpty then d.head
  else d.head ++ [' ', '('] ++ joinSep [','] d.fields ++ [')']

/-- ddl.renameTable(dst, src): replace the first occurrence of the
backtick-quoted src in the header; error when the header is unchanged.
(The Go error message interpolates src and the head; the exact message
text is immaterial here.) -/
def ddl.renameTable (d : ddl) (dst src : Str) : Except String ddl :=
  let newHead := replaceFirst (bqC :: src ++ [bqC]) (bqC :: dst ++ [bqC]) d.head
  if newHead = d.head then .error "failed to look up tablename"
  else .ok ⟨newHead, d.fields, d.columns⟩

/-- Match test of addConstraint / removeConstraint / hasConstraint:
case-insensitive CONSTRAINT prefix and substring containment of name. -/
def isConstraintMatch (f nm : Str) : Bool :=
  strStarts (toUpperStr f) kwCONSTRAINT && strContains f nm

def addConstraintFields (nm sqlStr : Str) : List Str → List Str
  | [] => [sqlStr]
  | f :: fs =>
    if isConstraintMatch f nm then sqlStr :: fs
    else f :: addConstraintFields nm sqlStr fs

/-- ddl.addConstraint(name, sql): replace the first matching CONSTRAINT
entry, or append the new text as a fresh field. -/
def ddl.addConstraint (d : ddl) (nm sqlStr : Str) : ddl :=
  ⟨d.head, addConstraintFields nm sqlStr d.fields, d.columns⟩

/-- Match test of removeColumn: the first whitespace token of the field,
with surrounding quote characters trimmed, equals name. -/
def colNameMatches (f nm : Str) : Bool :=
  match goFields f with
  | [] => false
  | p0 :: _ => trimBy isQuoteCut p0 == nm

def removeColumnFields (nm : Str) : List Str → List Str × Bool
  | [] => ([], false)
  | f :: fs =>
    if colNameMatches f nm then (fs, true)
    else
      match removeColumnFields nm fs with
      | (r, b) => (f :: r, b)

/-- ddl.removeColumn(name): drop the first field whose name token matches,
reporting whether a removal occurred. -/
def ddl.removeColumn (d : ddl) (nm : Str) : ddl × Bool :=
  match removeColumnFields nm d.fields with
  | (fs, b) => (⟨d.head, fs, d.columns⟩, b)

/-- Column filter of ddl.getColumns: skip clause entries and entries
containing GENERATED ALWAYS AS; return the stripped name backtick-quoted. -/
def getColumnName (field : Str) : Option Str :=
  let f := trimSpace field
  if clauseSkip f || strContains (toUpperStr f) kwGENERATED then none
  else
    match goFields f with
    | [] => none
    | p0 :: _ => some (bqC :: trimBy isQuoteCut p0 ++ [bqC])

/-- ddl.getColumns. -/
def ddl.getColumns (d : ddl) : List Str := d.fields.filterMap getColumnName

/- ===== Specification-side definitions, phrased after the claims' words,
   for comparison with the code-derived functions above. ===== -/

/-- The claims' reading of the parseTableFields failure condition: the
nesting counter, started at the given level, never returns to zero before
end of input.  Every character, a NUL included, is an ordinary character
here.  bracketCloses l level = true means the counter does return to 0. -/
def bracketCloses : Str → Nat → Bool
  | [], _ => false
  | c :: cs, level =>
    if c = '(' then bracketCloses cs (level + 1)
    else if c = ')' then (if level = 1 then true else bracketCloses cs (level - 1))
    else bracketCloses cs level

/-- Sentinel-aware reading of the same condition: the nesting returns to
zero before the scanner reports the sentinel 0 (end of input, or a NUL
character, which the scanner cannot distinguish from it). -/
def terminatesScan : Str → Nat → Bool
  | [], _ => false
  | c :: cs, level =>
    if c = nulC then false
    else if c = '(' then terminatesScan cs (level + 1)
    else if c = ')' then (if level = 1 then true else terminatesScan cs (level - 1))
    else terminatesScan cs level

/-- Depth scan of a field fragment: from a starting depth, fail (none) on
a NUL, on a ')' at depth 0 or on a ',' at depth 0, otherwise return the
final depth.  A complete field entry scans from 0 to 0. -/
def scanDepth : Str → Nat → Option Nat
  | [], d => some d
  | c :: cs, d =>
    if c = nulC then none
    else if c = '(' then scanDepth cs (d + 1)
    else if c = ')' then (match d with | 0 => none | d' + 1 => scanDepth cs d')
    else if c = ',' ∧ d = 0 then none
    else scanDepth cs d

/-- Amended C5 reading of default extraction from the remainder text:
split on the first case-sensitive occurrence of DEFAULT (absent when there
is none), trim the text after it, leave a case-insensitive NULL absent,
otherwise record it with all surrounding parenthesis characters stripped. -/
def expectedDefault (rest : Str) : Option Str :=
  match splitFirst kwDEFAULT rest with
  | none => none
  | some (_, after) =>
    let dv := trimSpace after
    if equalFold dv kwNULL then none else some (trimBy isParenCut dv)

/-- Amended C6 reading of type/length extraction for a declared type that
contains '(': the base type is stripped and the length recorded only when
the text inside (with trailing ')' characters removed) parses as an
integer; otherwise the type is kept as written and the length is absent. -/
def expectedTypeLen (t : Str) : Str × Option Int :=
  match splitOnChar '(' t with
  | b :: inner :: _ =>
    (match atoi (trimRightBy (fun c => c == ')') inner) with
     | some k => (b, some k)
     | none => (t, none))
  | _ => (t, none)

/- ===== Concrete inputs used by the individual claims ===== -/

def c1cexS : Str := "CREATE TABLE \"a`b\" (`x` INT)".data

def c1colX : ColumnType :=
  ⟨some ['x'], some "INT".data, some "INT".data, some false, some false, some true, none, none⟩

def c1cexM : ddl := ⟨"CREATE TABLE `a`b`".data, ["`x` INT".data], [c1colX]⟩

def c1cexM2 : ddl := ⟨"CREATE TABLE `a`".data, ["`x` INT".data], [c1colX]⟩

def c1wS : Str := "CREATE TABLE `t` (`a` INT)".data

def c1wM : ddl :=
  ⟨"CREATE TABLE `t`".data, ["`a` INT".data],
    [⟨some ['a'], some "INT".data, some "INT".data, some false, some false, some true, none, none⟩]⟩

def c2S : Str := "CREATE TABLE `t` (`a` DECIMAL(10,2), `b` TEXT CHECK (`b` <> ''))".data

def c3S : Str := "CREATE TABLE users (id int)".data

def c3Rest : Str := " `a` INT".data

def c3T : Str := "CREATE TABLE `t` `a` INT".data

def c4Body : Str := "`a` INT".data ++ nulC :: [')']

def c4In : Str := '(' :: c4Body

def c5F1 : Str := "`a` INT DEFAULT ((7))".data

def c5F2 : Str := "`a` INT default 5".data

def c5wF : Str := "`id` INTEGER NOT NULL DEFAULT 0".data

def c6F : Str := "`a` DECIMAL(10,2)".data

def c6wF : Str := "`n` VARCHAR(255)".data

def c7D : ddl := ⟨"CREATE TABLE `users`".data, [], []⟩

def c10F : Str := "foo".data

/- ===== Helper lemmas ===== -/

theorem skipLoop_none_of_no_stop (stop : Char → Bool) (h0 : stop nulC = false) :
    ∀ (n : Nat) (l : Str), (∀ c ∈ l, stop c = false) → skipLoop stop n l = none := by
  intro n
  induction n with
  | zero => intro l _; rfl
  | succ n ih =>
    intro l hl
    cases l with
    | nil =>
      simp only [skipLoop, lexPeek, h0, Bool.false_eq_true, if_false, lexNext]
      exact ih [] (by intro c hc; cases hc)
    | cons c cs =>
      have hc := hl c (List.mem_cons_self ..)
      simp only [skipLoop, lexPeek, hc, Bool.false_eq_true, if_false, lexNext]
      exact ih cs (fun d hd => hl d (List.mem_cons_of_mem _ hd))

theorem dropUntil_none_iff (stop : Char → Bool) :
    ∀ l : Str, dropUntil stop l = none ↔ ∀ c ∈ l, stop c = false := by
  intro l
  induction l with
  | nil => simp [dropUntil]
  | cons c cs ih =>
    by_cases h : stop c
    · simp [dropUntil, h]
    · simp only [dropUntil, h, Bool.false_eq_true, if_false, ih, List.forall_mem_cons]
      simp [h]

theorem skipLoop_some_dropUntil (stop : Char → Bool) (h0 : stop nulC = false) :
    ∀ (n : Nat) (l l' : Str), skipLoop stop n l = some l' → dropUntil stop l = some l' := by
  intro n
  induction n with
  | zero => intro l l' h; exact absurd h (by simp [skipLoop])
  | succ n ih =>
    intro l l' h
    cases l with
    | nil =>
      simp only [skipLoop, lexPeek, h0, Bool.false_eq_true, if_false, lexNext] at h
      have := skipLoop_none_of_no_stop stop h0 n [] (by intro c hc; cases hc)
      rw [this] at h; cases h
    | cons c cs =>
      by_cases hc : stop c
      · simp only [skipLoop, lexPeek, hc, if_true] at h
        cases h
        simp [dropUntil, hc]
      · simp only [skipLoop, lexPeek, hc, Bool.false_eq_true, if_false, lexNext] at h
        simp only [dropUntil, hc, Bool.false_eq_true, if_false]
        exact ih cs l' h

theorem dropUntil_some_skipLoop (stop : Char → Bool) :
    ∀ (l l' : Str), dropUntil stop l = some l' → skipLoop stop (l.length + 1) l = some l' := by
  intro l
  induction l with
  | nil => intro l' h; cases h
  | cons c cs ih =>
    intro l' h
    by_cases hc : stop c
    · simp only [dropUntil, hc, if_true] at h
      cases h
      simp [skipLoop, lexPeek, hc]
    · simp only [dropUntil, hc, Bool.false_eq_true, if_false] at h
      simp only [List.length_cons, skipLoop, lexPeek, hc, Bool.false_eq_true, if_false, lexNext]
      exact ih l' h

theorem dropUntil_append_no_stop (stop : Char → Bool) :
    ∀ (a l : Str), (∀ c ∈ a, stop c = false) → dropUntil stop (a ++ l) = dropUntil stop l := by
  intro a
  induction a with
  | nil => intro l _; rfl
  | cons c cs ih =>
    intro l hl
    have hc := hl c (List.mem_cons_self ..)
    simp only [List.cons_append, dropUntil, hc, Bool.false_eq_true, if_false]
    exact ih l (fun d hd => hl d (List.mem_cons_of_mem _ hd))


theorem parseStringAux_ok_mem (q : Char) :
    ∀ (l s r : Str), parseStringAux q l = .ok (s, r) → ∀ c ∈ s, c ≠ nulC ∧ c ≠ q := by
  intro l
  induction l with
  | nil => intro s r h; cases h
  | cons c cs ih =>
    intro s r h
    by_cases h1 : c = nulC
    · simp [parseStringAux, h1] at h
    · by_cases h2 : c = q
      · simp only [parseStringAux, if_neg h1, if_pos h2] at h
        cases h
        intro d hd; cases hd
      · simp only [parseStringAux, if_neg h1, if_neg h2] at h
        cases hrec : parseStringAux q cs with
        | error e => rw [hrec] at h; cases h
        | ok p =>
          rw [hrec] at h
          obtain ⟨s1, r1⟩ := p
          simp only at h
          cases h
          intro d hd
          rcases List.mem_cons.mp hd with hd | hd
          · subst hd; exact ⟨h1, h2⟩
          · exact ih _ _ hrec d hd

theorem parseStringAux_append (q : Char) (hq : q ≠ nulC) :
    ∀ (s r : Str), (∀ c ∈ s, c ≠ nulC ∧ c ≠ q) → parseStringAux q (s ++ q :: r) = .ok (s, r) := by
  intro s
  induction s with
  | nil =>
    intro r _
    simp [parseStringAux, hq]
  | cons c cs ih =>
    intro r h
    have hc := h c (List.mem_cons_self ..)
    simp only [List.cons_append, List.append_eq, parseStringAux, if_neg hc.1, if_neg hc.2]
    rw [ih r (fun d hd => h d (List.mem_cons_of_mem _ hd))]

theorem replaceFirst_of_not_contains (pat repl : Str) :
    ∀ s : Str, strContains s pat = false → replaceFirst pat repl s = s := by
  intro s
  induction s with
  | nil =>
    intro h
    simp only [strContains] at h
    have hnp : ¬ pat.isPrefixOf ([] : Str) = true := by
      intro hp
      rw [List.isPrefixOf_iff_prefix] at hp
      rw [List.prefix_nil.mp hp] at h
      simp at h
    simp [replaceFirst, hnp]
  | cons c cs ih =>
    intro h
    simp only [strContains, Bool.or_eq_false_iff] at h
    simp only [replaceFirst, h.1, Bool.false_eq_true, if_false]
    rw [ih h.2]

theorem replaceFirst_self (pat : Str) :
    ∀ s : Str, replaceFirst pat pat s = s := by
  intro s
  induction s with
  | nil =>
    by_cases h : pat.isPrefixOf ([] : Str) = true
    · have hnil := List.prefix_nil.mp ((List.isPrefixOf_iff_prefix).mp h)
      simp [replaceFirst, h, hnil]
    · simp [replaceFirst, h]
  | cons c cs ih =>
    by_cases h : pat.isPrefixOf (c :: cs) = true
    · simp only [replaceFirst, h, if_true]
      obtain ⟨t, ht⟩ := (List.isPrefixOf_iff_prefix).mp h
      conv_rhs => rw [← ht]
      rw [← ht, List.drop_left]
    · simp only [replaceFirst, h, Bool.false_eq_true, if_false]
      rw [ih]

theorem replaceFirst_ne_of_contains (pat repl : Str) (hne : pat ≠ repl) :
    ∀ s : Str, strContains s pat = true → replaceFirst pat repl s ≠ s := by
  intro s
  induction s with
  | nil =>
    intro h
    have hpat : pat = [] := by
      simpa [strContains, List.isEmpty_iff] using h
    subst hpat
    have hrepl : repl ≠ [] := fun hr => hne hr.symm
    simp only [replaceFirst, List.isPrefixOf, if_true, List.drop_nil, List.append_nil]
    exact hrepl
  | cons c cs ih =>
    intro h
    by_cases hp : pat.isPrefixOf (c :: cs) = true
    · simp only [replaceFirst, hp, if_true]
      obtain ⟨t, ht⟩ := (List.isPrefixOf_iff_prefix).mp hp
      intro he
      conv_rhs at he => rw [← ht]
      rw [← ht, List.drop_left] at he
      have hlen : repl.length = pat.length := by
        have hc := congrArg List.length he
        simp only [List.length_append] at hc
        omega
      exact hne ((List.append_inj he hlen).1.symm)
    · simp only [strContains, hp, Bool.false_or] at h
      simp only [replaceFirst, hp, Bool.false_eq_true, if_false]
      intro he
      injection he with h1 h2
      exact ih h h2

theorem dropWhile_head_false (p : Char → Bool) :
    ∀ (l t : Str) (c : Char), l.dropWhile p = c :: t → p c = false := by
  intro l
  induction l with
  | nil => intro t c h; cases h
  | cons a as ih =>
    intro t c h
    by_cases ha : p a
    · rw [List.dropWhile_cons_of_pos ha] at h
      exact ih t c h
    · rw [List.dropWhile_cons_of_neg ha] at h
      cases h
      exact Bool.of_not_eq_true ha

theorem dropWhile_eq_self_of_head (p : Char → Bool) (l : Str)
    (h : ∀ c t, l = c :: t → p c = false) : l.dropWhile p = l := by
  cases l with
  | nil => rfl
  | cons c t =>
    rw [List.dropWhile_cons_of_neg]
    rw [h c t rfl]
    exact Bool.false_ne_true

theorem dropWhile_idem (p : Char → Bool) (l : Str) :
    (l.dropWhile p).dropWhile p = l.dropWhile p := by
  apply dropWhile_eq_self_of_head
  intro c t h
  exact dropWhile_head_false p l t c h

theorem trimRightBy_prefix (p : Char → Bool) (l : Str) : trimRightBy p l <+: l := by
  unfold trimRightBy
  have h := List.dropWhile_suffix (l := l.reverse) (p := p)
  have h2 : (l.reverse.dropWhile p).reverse <+: l.reverse.reverse := List.reverse_prefix.mpr h
  rwa [List.reverse_reverse] at h2

theorem trimRightBy_idem (p : Char → Bool) (l : Str) :
    trimRightBy p (trimRightBy p l) = trimRightBy p l := by
  unfold trimRightBy
  rw [List.reverse_reverse, dropWhile_idem]

theorem trimBy_left_clean (p : Char → Bool) (l : Str) :
    (trimBy p l).dropWhile p = trimBy p l := by
  apply dropWhile_eq_self_of_head
  intro c t h
  have hy : trimBy p l <+: trimLeftBy p l := trimRightBy_prefix p _
  obtain ⟨t2, ht2⟩ := hy
  rw [h] at ht2
  apply dropWhile_head_false p l (t ++ t2) c
  rw [trimLeftBy] at ht2
  rw [← ht2]
  simp

theorem trimBy_idem (p : Char → Bool) (l : Str) :
    trimBy p (trimBy p l) = trimBy p l := by
  conv_lhs => rw [trimBy, trimLeftBy, trimBy_left_clean]
  rw [trimBy, trimRightBy_idem]

theorem trimSpace_idem (l : Str) : trimSpace (trimSpace l) = trimSpace l :=
  trimBy_idem isSpaceGo l

theorem trimBy_decomp (p : Char → Bool) (l : Str) :
    ∃ a b, l = a ++ trimBy p l ++ b ∧ (∀ c ∈ a, p c = true) ∧ (∀ c ∈ b, p c = true) := by
  refine ⟨l.takeWhile p, ((trimLeftBy p l).reverse.takeWhile p).reverse, ?_, ?_, ?_⟩
  · have h1 : l = l.takeWhile p ++ trimLeftBy p l := by
      rw [trimLeftBy, List.takeWhile_append_dropWhile]
    have h2 : trimLeftBy p l =
        trimBy p l ++ ((trimLeftBy p l).reverse.takeWhile p).reverse := by
      have h3 : (trimLeftBy p l).reverse =
          (trimLeftBy p l).reverse.takeWhile p ++ (trimLeftBy p l).reverse.dropWhile p :=
        (List.takeWhile_append_dropWhile ..).symm
      have h4 := congrArg List.reverse h3
      rw [List.reverse_reverse, List.reverse_append] at h4
      rw [trimBy, trimRightBy]
      exact h4
    conv_lhs => rw [h1, h2]
    rw [List.append_assoc]
  · intro c hc
    exact List.mem_takeWhile_imp hc
  · intro c hc
    rw [List.mem_reverse] at hc
    exact List.mem_takeWhile_imp hc

theorem scanDepth_append :
    ∀ (a b : Str) (d e : Nat), scanDepth a d = some e → scanDepth (a ++ b) d = scanDepth b e := by
  intro a
  induction a with
  | nil =>
    intro b d e h
    simp only [scanDepth] at h
    cases h
    rfl
  | cons c cs ih =>
    intro b d e h
    by_cases h1 : c = nulC
    · simp [scanDepth, h1] at h
    · by_cases h2 : c = '('
      · simp only [scanDepth, if_neg h1, if_pos h2] at h
        simp only [List.cons_append, scanDepth, if_neg h1, if_pos h2]
        exact ih b (d + 1) e h
      · by_cases h3 : c = ')'
        · cases d with
          | zero => simp [scanDepth, if_neg h1, if_neg h2, if_pos h3] at h
          | succ d' =>
            simp only [scanDepth, if_neg h1, if_neg h2, if_pos h3] at h
            simp only [List.cons_append, scanDepth, if_neg h1, if_neg h2, if_pos h3]
            exact ih b d' e h
        · by_cases h4 : c = ',' ∧ d = 0
          · simp [scanDepth, if_neg h1, if_neg h2, if_neg h3, if_pos h4] at h
          · simp only [scanDepth, if_neg h1, if_neg h2, if_neg h3, if_neg h4] at h
            simp only [List.cons_append, scanDepth, if_neg h1, if_neg h2, if_neg h3, if_neg h4]
            exact ih b d e h

theorem scanDepth_append_inv :
    ∀ (a b : Str) (d r : Nat), scanDepth (a ++ b) d = some r →
      ∃ e, scanDepth a d = some e ∧ scanDepth b e = some r := by
  intro a
  induction a with
  | nil =>
    intro b d r h
    exact ⟨d, rfl, h⟩
  | cons c cs ih =>
    intro b d r h
    by_cases h1 : c = nulC
    · simp [scanDepth, h1] at h
    · by_cases h2 : c = '('
      · simp only [List.cons_append, scanDepth, if_neg h1, if_pos h2] at h
        obtain ⟨e, he1, he2⟩ := ih b (d + 1) r h
        exact ⟨e, by simp only [scanDepth, if_neg h1, if_pos h2]; exact he1, he2⟩
      · by_cases h3 : c = ')'
        · cases d with
          | zero => simp [scanDepth, if_neg h1, if_neg h2, if_pos h3] at h
          | succ d' =>
            simp only [List.cons_append, scanDepth, if_neg h1, if_neg h2, if_pos h3] at h
            obtain ⟨e, he1, he2⟩ := ih b d' r h
            exact ⟨e, by simp only [scanDepth, if_neg h1, if_neg h2, if_pos h3]; exact he1, he2⟩
        · by_cases h4 : c = ',' ∧ d = 0
          · simp [scanDepth, if_neg h1, if_neg h2, if_neg h3, if_pos h4] at h
          · simp only [List.cons_append, scanDepth, if_neg h1, if_neg h2, if_neg h3,
              if_neg h4] at h
            obtain ⟨e, he1, he2⟩ := ih b d r h
            refine ⟨e, ?_, he2⟩
            simp only [scanDepth, if_neg h1, if_neg h2, if_neg h3, if_neg h4]
            exact he1

theorem isSpaceGo_ne_special (c : Char) (h : isSpaceGo c = true) :
    c ≠ nulC ∧ c ≠ '(' ∧ c ≠ ')' ∧ c ≠ ',' := by
  refine ⟨?_, ?_, ?_, ?_⟩ <;> intro he <;> subst he <;> revert h <;> decide

theorem scanDepth_spaces_left :
    ∀ (a : Str), (∀ c ∈ a, isSpaceGo c = true) → ∀ (b : Str) (d : Nat),
      scanDepth (a ++ b) d = scanDepth b d := by
  intro a
  induction a with
  | nil => intro _ b d; rfl
  | cons c cs ih =>
    intro ha b d
    obtain ⟨h1, h2, h3, h4⟩ := isSpaceGo_ne_special c (ha c (List.mem_cons_self ..))
    simp only [List.cons_append, scanDepth, if_neg h1, if_neg h2, if_neg h3,
      if_neg (fun hc : c = ',' ∧ d = 0 => h4 hc.1)]
    exact ih (fun x hx => ha x (List.mem_cons_of_mem _ hx)) b d

theorem scanDepth_spaces (b : Str) (hb : ∀ c ∈ b, isSpaceGo c = true) (d : Nat) :
    scanDepth b d = some d := by
  have h := scanDepth_spaces_left b hb [] d
  rwa [List.append_nil] at h

theorem scanDepth_trimSpace (l : Str) (h : scanDepth l 0 = some 0) :
    scanDepth (trimSpace l) 0 = some 0 := by
  obtain ⟨a, b, hdec, hA, hB⟩ := trimBy_decomp isSpaceGo l
  rw [hdec, List.append_assoc, scanDepth_spaces_left a hA] at h
  obtain ⟨e, he1, he2⟩ := scanDepth_append_inv _ b 0 0 h
  rw [scanDepth_spaces b hB e] at he2
  cases he2
  exact he1

theorem fieldsLoop_fields_ok :
    ∀ (l : Str) (d : Nat) (cur : Str) (acc fs : List Str) (rest : Str),
      scanDepth cur 0 = some d →
      (∀ f ∈ acc, scanDepth f 0 = some 0 ∧ trimSpace f = f) →
      fieldsLoop l (d + 1) cur acc = .ok (fs, rest) →
      ∀ f ∈ fs, scanDepth f 0 = some 0 ∧ trimSpace f = f := by
  intro l
  induction l with
  | nil => intro d cur acc fs rest _ _ h; cases h
  | cons c cs ih =>
    intro d cur acc fs rest hcur hacc h
    by_cases h1 : c = nulC
    · simp [fieldsLoop, h1] at h
    · by_cases h2 : c = '('
      · simp only [fieldsLoop, if_neg h1, if_pos h2] at h
        subst h2
        have hcur2 : scanDepth (cur ++ ['(']) 0 = some (d + 1) := by
          rw [scanDepth_append cur ['('] 0 d hcur]
          simp only [scanDepth, if_neg (show ¬ '(' = nulC by decide), if_pos rfl]
          simp only [if_true]
        exact ih (d + 1) (cur ++ ['(']) acc fs rest hcur2 hacc h
      · by_cases h3 : c = ')'
        · cases d with
          | zero =>
            simp only [fieldsLoop, if_neg h1, if_neg h2, if_pos h3] at h
            simp only [if_true] at h
            cases h
            intro f hf
            by_cases hce : cur.isEmpty
            · rw [if_pos hce, List.append_nil] at hf
              exact hacc f hf
            · rw [if_neg hce] at hf
              rcases List.mem_append.mp hf with hf | hf
              · exact hacc f hf
              · rw [List.mem_singleton.mp hf]
                exact ⟨scanDepth_trimSpace cur hcur, trimSpace_idem cur⟩
          | succ e =>
            simp only [fieldsLoop, if_neg h1, if_neg h2, if_pos h3,
              if_neg (by omega : ¬(e + 1 + 1 = 1))] at h
            subst h3
            have hcur2 : scanDepth (cur ++ [')']) 0 = some e := by
              rw [scanDepth_append cur [')'] 0 (e + 1) hcur]
              simp only [scanDepth, if_neg (show ¬ ')' = nulC by decide),
                if_neg (show ¬ ')' = '(' by decide), if_pos rfl]
              simp only [if_true]
            rw [show e + 1 + 1 - 1 = e + 1 from rfl] at h
            exact ih e (cur ++ [')']) acc fs rest hcur2 hacc h
        · by_cases h4 : c = ',' ∧ d + 1 = 1
          · simp only [fieldsLoop, if_neg h1, if_neg h2, if_neg h3, if_pos h4] at h
            have hd0 : d = 0 := by
              have h5 := h4.2
              omega
            subst hd0
            apply ih 0 [] (acc ++ [trimSpace cur]) fs rest rfl ?_ h
            intro f hf
            rcases List.mem_append.mp hf with hf | hf
            · exact hacc f hf
            · rw [List.mem_singleton.mp hf]
              exact ⟨scanDepth_trimSpace cur hcur, trimSpace_idem cur⟩
          · simp only [fieldsLoop, if_neg h1, if_neg h2, if_neg h3, if_neg h4] at h
            have hcur2 : scanDepth (cur ++ [c]) 0 = some d := by
              rw [scanDepth_append cur [c] 0 d hcur]
              simp only [scanDepth, if_neg h1, if_neg h2, if_neg h3,
                if_neg (fun hc : c = ',' ∧ d = 0 => h4 ⟨hc.1, by rw [hc.2]⟩)]
            exact ih d (cur ++ [c]) acc fs rest hcur2 hacc h

theorem fieldsLoop_append_field :
    ∀ (f : Str) (d e : Nat) (l' cur : Str) (acc : List Str),
      scanDepth f d = some e →
      fieldsLoop (f ++ l') (d + 1) cur acc = fieldsLoop l' (e + 1) (cur ++ f) acc := by
  intro f
  induction f with
  | nil =>
    intro d e l' cur acc h
    simp only [scanDepth] at h
    cases h
    simp
  | cons c cs ih =>
    intro d e l' cur acc h
    by_cases h1 : c = nulC
    · simp [scanDepth, h1] at h
    · by_cases h2 : c = '('
      · simp only [scanDepth, if_neg h1, if_pos h2] at h
        simp only [List.cons_append, List.append_eq, fieldsLoop, if_neg h1, if_pos h2]
        rw [ih (d + 1) e l' (cur ++ [c]) acc h]
        subst h2
        simp [List.append_assoc]
      · by_cases h3 : c = ')'
        · cases d with
          | zero => simp [scanDepth, if_neg h1, if_neg h2, if_pos h3] at h
          | succ e2 =>
            simp only [scanDepth, if_neg h1, if_neg h2, if_pos h3] at h
            simp only [List.cons_append, List.append_eq, fieldsLoop, if_neg h1, if_neg h2,
              if_pos h3, if_neg (by omega : ¬(e2 + 1 + 1 = 1))]
            rw [show e2 + 1 + 1 - 1 = e2 + 1 from rfl]
            rw [ih e2 e l' (cur ++ [c]) acc h]
            subst h3
            simp [List.append_assoc]
        · by_cases h4 : c = ','
          · have hd : ¬(d = 0) := by
              intro hd0
              subst hd0
              simp [scanDepth, if_neg h1, if_neg h2, if_neg h3, h4] at h
            simp only [scanDepth, if_neg h1, if_neg h2, if_neg h3,
              if_neg (fun hc : c = ',' ∧ d = 0 => hd hc.2)] at h
            simp only [List.cons_append, List.append_eq, fieldsLoop, if_neg h1, if_neg h2,
              if_neg h3, if_neg (fun hc : c = ',' ∧ d + 1 = 1 => hd (by have h5 := hc.2; omega))]
            rw [ih d e l' (cur ++ [c]) acc h]
            simp [List.append_assoc]
          · simp only [scanDepth, if_neg h1, if_neg h2, if_neg h3,
              if_neg (fun hc : c = ',' ∧ d = 0 => h4 hc.1)] at h
            simp only [List.cons_append, List.append_eq, fieldsLoop, if_neg h1, if_neg h2,
              if_neg h3, if_neg (fun hc : c = ',' ∧ d + 1 = 1 => h4 hc.1)]
            rw [ih d e l' (cur ++ [c]) acc h]
            simp [List.append_assoc]

theorem fieldsLoop_join :
    ∀ (fs : List Str) (rest : Str) (acc : List Str),
      fs ≠ [] →
      (∀ f ∈ fs, scanDepth f 0 = some 0 ∧ trimSpace f = f) →
      fs.getLast? ≠ some ([] : Str) →
      fieldsLoop (joinSep [','] fs ++ ')' :: rest) 1 [] acc = .ok (acc ++ fs, rest) := by
  intro fs
  induction fs with
  | nil => intro rest acc h _ _; exact absurd rfl h
  | cons f fs2 ih =>
    intro rest acc _ hok hlast
    have hf := hok f (List.mem_cons_self ..)
    cases fs2 with
    | nil =>
      simp only [joinSep]
      have h0 := fieldsLoop_append_field f 0 0 (')' :: rest) [] acc hf.1
      simp only [List.nil_append] at h0
      rw [h0]
      have hfne : ¬ f.isEmpty = true := by
        rw [List.isEmpty_iff]
        intro he
        apply hlast
        rw [he]
        rfl
      simp only [fieldsLoop, if_neg (show ¬ ')' = nulC by decide),
        if_neg (show ¬ ')' = '(' by decide), if_pos rfl, if_true, if_neg hfne, hf.2]
    | cons g fs3 =>
      simp only [joinSep, List.append_assoc, List.cons_append, List.nil_append]
      have h0 := fieldsLoop_append_field f 0 0 (',' :: (joinSep [','] (g :: fs3) ++ ')' :: rest))
        [] acc hf.1
      simp only [List.nil_append] at h0
      rw [h0]
      simp only [fieldsLoop, if_neg (show ¬ ',' = nulC by decide),
        if_neg (show ¬ ',' = '(' by decide), if_neg (show ¬ ',' = ')' by decide),
        if_pos (show (',' : Char) = ',' ∧ 1 = 1 from ⟨rfl, rfl⟩), hf.2]
      rw [ih rest (acc ++ [f]) (by intro h; cases h) (fun x hx => hok x (List.mem_cons_of_mem _ hx))
        (by rw [List.getLast?_cons_cons] at hlast; exact hlast)]
      rw [List.append_assoc]
      rfl

theorem fieldsLoop_error_iff :
    ∀ (l : Str) (level : Nat) (cur : Str) (acc : List Str),
      (fieldsLoop l level cur acc = .error errUnterminatedTable) ↔ terminatesScan l level = false := by
  intro l
  induction l with
  | nil => intro level cur acc; simp [fieldsLoop, terminatesScan]
  | cons c cs ih =>
    intro level cur acc
    by_cases h1 : c = nulC
    · simp [fieldsLoop, terminatesScan, h1]
    · by_cases h2 : c = '('
      · simp only [fieldsLoop, terminatesScan, if_neg h1, if_pos h2]
        exact ih (level + 1) (cur ++ [c]) acc
      · by_cases h3 : c = ')'
        · by_cases hl : level = 1
          · simp [fieldsLoop, terminatesScan, if_neg h1, if_neg h2, if_pos h3, if_pos hl]
          · simp only [fieldsLoop, terminatesScan, if_neg h1, if_neg h2, if_pos h3, if_neg hl]
            exact ih (level - 1) (cur ++ [c]) acc
        · by_cases h4 : c = ',' ∧ level = 1
          · simp only [fieldsLoop, terminatesScan, if_neg h1, if_neg h2, if_neg h3, if_pos h4]
            rw [h4.2]
            exact ih 1 [] (acc ++ [trimSpace cur])
          · simp only [fieldsLoop, terminatesScan, if_neg h1, if_neg h2, if_neg h3, if_neg h4]
            exact ih level (cur ++ [c]) acc

theorem parseTableFields_skip (pre body : Str) (hp : ∀ c ∈ pre, isOpenParen c = false) :
    parseTableFields (pre ++ '(' :: body) = fieldsLoop body 1 [] [] := by
  simp only [parseTableFields]
  rw [dropUntil_append_no_stop isOpenParen pre _ hp]
  simp [dropUntil, isOpenParen]

theorem parseDDLGo_ok_inv :
    ∀ (ss : List Str) (r m : ddl), parseDDLGo ss r = .ok m →
      m = r ∨ ∃ s nm r1 fs r2, parseTableName s = .ok (nm, r1) ∧
        parseTableFields r1 = .ok (fs, r2) ∧ m = ⟨fmtHead nm, fs, parseColumns fs⟩ := by
  intro ss
  induction ss with
  | nil =>
    intro r m h
    simp only [parseDDLGo] at h
    cases h
    exact Or.inl rfl
  | cons s ss2 ih =>
    intro r m h
    simp only [parseDDLGo] at h
    cases hstep : parseDDLStep r s with
    | error e => rw [hstep] at h; cases h
    | ok r2 =>
      rw [hstep] at h
      rcases ih r2 m h with hm | hm
      · subst hm
        simp only [parseDDLStep] at hstep
        by_cases hct : strStarts (toUpperStr s) kwCREATETABLE = true
        · rw [if_pos hct] at hstep
          cases htn : parseTableName s with
          | error e => rw [htn] at hstep; cases hstep
          | ok p =>
            obtain ⟨nm, r1⟩ := p
            rw [htn] at hstep
            simp only at hstep
            cases htf : parseTableFields r1 with
            | error e => rw [htf] at hstep; cases hstep
            | ok q =>
              obtain ⟨fs, r3⟩ := q
              rw [htf] at hstep
              simp only at hstep
              cases hstep
              exact Or.inr ⟨s, nm, r1, fs, r3, htn, htf, rfl⟩
        · rw [if_neg hct] at hstep
          by_cases hci : strStarts (toUpperStr s) kwCREATEINDEX = true
          · rw [if_pos hci] at hstep
            cases hstep
            exact Or.inl rfl
          · rw [if_neg hci] at hstep
            cases hstep
      · exact Or.inr hm

theorem isPrefixOf_append_right (a b c : Str) (h : a.isPrefixOf b = true) :
    a.isPrefixOf (b ++ c) = true := by
  rw [List.isPrefixOf_iff_prefix] at h ⊢
  exact h.trans (List.prefix_append b c)

theorem toUpperStr_append (a b : Str) : toUpperStr (a ++ b) = toUpperStr a ++ toUpperStr b := by
  simp [toUpperStr]

theorem count_fmtHead (nm : Str) : (fmtHead nm).count bqC = nm.count bqC + 2 := by
  rw [fmtHead, List.count_append, List.count_append]
  have h1 : headPre.count bqC = 1 := by decide
  have h2 : ([bqC] : Str).count bqC = 1 := by decide
  rw [h1, h2]
  omega

theorem strStarts_fmtHead (nm rest : Str) :
    strStarts (toUpperStr (fmtHead nm ++ rest)) kwCREATETABLE = true := by
  rw [strStarts, fmtHead]
  rw [show (headPre ++ nm ++ [bqC]) ++ rest = headPre ++ (nm ++ [bqC] ++ rest) by
    simp [List.append_assoc]]
  rw [toUpperStr_append]
  rw [show toUpperStr headPre = headPre by decide]
  exact isPrefixOf_append_right _ _ _ (by decide)

theorem parseTableName_head (nm rest : Str) (hnb : bqC ∉ nm) (hnn : nulC ∉ nm) :
    parseTableName (fmtHead nm ++ rest) = .ok (nm, rest) := by
  have hsplit : fmtHead nm ++ rest =
      ( "CREATE TABLE ".data : Str) ++ (bqC :: (nm ++ bqC :: rest)) := by
    rw [fmtHead]
    rw [show headPre = ( "CREATE TABLE ".data : Str) ++ [bqC] by decide]
    simp [List.append_assoc]
  rw [hsplit]
  simp only [parseTableName]
  rw [dropUntil_append_no_stop isQuoteChar ( "CREATE TABLE ".data) _ (by decide)]
  rw [show dropUntil isQuoteChar (bqC :: (nm ++ bqC :: rest)) =
    some (bqC :: (nm ++ bqC :: rest)) by simp [dropUntil, isQuoteChar]]
  simp only [parseStringGo]
  exact parseStringAux_append bqC (by decide) nm rest
    (fun c hc => ⟨fun he => hnn (he ▸ hc), fun he => hnb (he ▸ hc)⟩)

theorem parseDDL_compile_ok (nm : Str) (fs : List Str)
    (hnb : bqC ∉ nm) (hnn : nulC ∉ nm)
    (hfs : ∀ f ∈ fs, scanDepth f 0 = some 0 ∧ trimSpace f = f)
    (hne : fs ≠ []) (hlast : fs.getLast? ≠ some ([] : Str)) :
    parseDDL [ddl.compile ⟨fmtHead nm, fs, parseColumns fs⟩] =
      .ok ⟨fmtHead nm, fs, parseColumns fs⟩ := by
  have hcomp : ddl.compile ⟨fmtHead nm, fs, parseColumns fs⟩ =
      fmtHead nm ++ (' ' :: '(' :: (joinSep [','] fs ++ ')' :: [])) := by
    rw [ddl.compile]
    simp only [if_neg (fun hce => hne (List.isEmpty_iff.mp hce))]
    simp [List.append_assoc]
  have hstep : parseDDLStep ⟨[], [], []⟩ (ddl.compile ⟨fmtHead nm, fs, parseColumns fs⟩) =
      .ok ⟨fmtHead nm, fs, parseColumns fs⟩ := by
    rw [parseDDLStep, hcomp]
    rw [if_pos (strStarts_fmtHead nm _)]
    rw [parseTableName_head nm _ hnb hnn]
    simp only
    rw [show (' ' :: '(' :: (joinSep [','] fs ++ ')' :: [])) =
      [' '] ++ '(' :: (joinSep [','] fs ++ ')' :: []) from rfl]
    rw [parseTableFields_skip [' '] _ (by decide)]
    rw [fieldsLoop_join fs [] [] hne hfs hlast]
    simp
  simp only [parseDDL, parseDDLGo, hstep]

/- ===== Claim theorems ===== -/

/-- Claim C1 (amended): round-trip stability of compile after parseDDL.
For any statement list whose parse succeeds with model m, if m's header
contains exactly two backtick characters (equivalently: the extracted
table name contains no backtick), the field list is nonempty, and its last
entry is nonempty, then parsing the compiled text succeeds and returns
exactly m — same header (hence same table name), same field list in the
same order, and same column descriptors.  As literally stated the claim
fails: a table name containing a backtick, legal under double-quote
quoting, is not preserved by the round trip (see C1_round_trip_cex). -/
theorem C1_round_trip (ss : List Str) (m : ddl)
    (hp : parseDDL ss = .ok m)
    (hcnt : m.head.count bqC = 2)
    (hf : m.fields ≠ [])
    (hl : m.fields.getLast? ≠ some ([] : Str)) :
    parseDDL [m.compile] = .ok m := by
  rcases parseDDLGo_ok_inv ss ⟨[], [], []⟩ m hp with hm | ⟨s, nm, r1, fs, r2, htn, htf, hm⟩
  · exact absurd (congrArg ddl.fields hm) hf
  · subst hm
    have hnn : nulC ∉ nm := by
      simp only [parseTableName] at htn
      cases hdu : dropUntil isQuoteChar s with
      | none => rw [hdu] at htn; cases htn
      | some l2 =>
        rw [hdu] at htn
        cases l2 with
        | nil => simp [parseStringGo] at htn
        | cons q cs =>
          simp only [parseStringGo] at htn
          intro hmem
          exact (parseStringAux_ok_mem q cs nm r1 htn nulC hmem).1 rfl
    have hcnt2 : (fmtHead nm).count bqC = 2 := hcnt
    rw [count_fmtHead nm] at hcnt2
    have hnb : bqC ∉ nm := List.count_eq_zero.mp (by omega)
    have hfs : ∀ f ∈ fs, scanDepth f 0 = some 0 ∧ trimSpace f = f := by
      simp only [parseTableFields] at htf
      cases hdu : dropUntil isOpenParen r1 with
      | none => rw [hdu] at htf; cases htf
      | some l2 =>
        rw [hdu] at htf
        simp only at htf
        exact fieldsLoop_fields_ok (l2.drop 1) 0 [] [] fs r2 rfl
          (by intro f hf3; cases hf3) htf
    exact parseDDL_compile_ok nm fs hnb hnn hfs hf hl

/-- Witness for C1_round_trip at a concrete statement. -/
theorem C1_round_trip_witness :
    parseDDL [c1wS] = .ok c1wM ∧ c1wM.head.count bqC = 2 ∧ c1wM.fields ≠ [] ∧
      c1wM.fields.getLast? ≠ some ([] : Str) ∧ parseDDL [c1wM.compile] = .ok c1wM := by
  refine ⟨by rfl, by decide, by decide, by decide, ?_⟩
  exact C1_round_trip [c1wS] c1wM (by rfl) (by decide) (by decide) (by decide)

/-- Counterexample to C1 as stated: the valid statement
CREATE TABLE "a`b" (`x` INT) parses to a model whose header quotes the
name a`b with backticks; re-parsing the compiled text extracts the table
name a instead, so compile-of-parse is not semantically equivalent to the
source (the table name differs). -/
theorem C1_round_trip_cex :
    parseDDL [c1cexS] = .ok c1cexM ∧
      parseDDL [ddl.compile c1cexM] = .ok c1cexM2 ∧
      c1cexM2.head ≠ c1cexM.head ∧ c1cexM2 ≠ c1cexM := by
  refine ⟨by rfl, by rfl, by decide, by decide⟩

/-- Claim C2: a comma splits fields only at bracket-nesting level exactly 1
(at deeper levels it is absorbed into the current field), so the statement
CREATE TABLE `t` (`a` DECIMAL(10,2), `b` TEXT CHECK (`b` <> '')) parses
into exactly the 2 expected fields, not 3. -/
theorem C2_top_level_split :
    (∃ d, parseDDL [c2S] = .ok d ∧
      d.fields = [ "`a` DECIMAL(10,2)".data, "`b` TEXT CHECK (`b` <> '')".data] ∧
      d.fields.length = 2) ∧
    (∀ (cs cur : Str) (acc : List Str) (k : Nat),
      fieldsLoop (',' :: cs) (k + 2) cur acc = fieldsLoop cs (k + 2) (cur ++ [',']) acc) ∧
    (∀ (cs cur : Str) (acc : List Str),
      fieldsLoop (',' :: cs) 1 cur acc = fieldsLoop cs 1 [] (acc ++ [trimSpace cur])) := by
  refine ⟨?_, ?_, ?_⟩
  · exact ⟨⟨ "CREATE TABLE `t`".data,
      [ "`a` DECIMAL(10,2)".data, "`b` TEXT CHECK (`b` <> '')".data],
      [⟨some ['a'], some "DECIMAL(10,2)".data, some "DECIMAL(10,2)".data, some false, some false,
        some true, none, none⟩,
       ⟨some ['b'], some "TEXT".data, some "TEXT".data, some false, some false,
        some true, none, none⟩]⟩, by rfl, by decide, by decide⟩
  · intro cs cur acc k
    simp only [fieldsLoop, if_neg (show ¬ ',' = nulC by decide),
      if_neg (show ¬ ',' = '(' by decide), if_neg (show ¬ ',' = ')' by decide),
      if_neg (fun hc : (',' : Char) = ',' ∧ k + 2 = 1 => absurd hc.2 (by omega))]
    rw [if_neg (fun hc : True ∧ k + 2 = 1 => absurd hc.2 (by omega))]
  · intro cs cur acc
    simp only [fieldsLoop, if_neg (show ¬ ',' = nulC by decide),
      if_neg (show ¬ ',' = '(' by decide), if_neg (show ¬ ',' = ')' by decide),
      if_pos (show (',' : Char) = ',' ∧ 1 = 1 from ⟨rfl, rfl⟩)]
    rw [if_pos (show True ∧ True from ⟨trivial, trivial⟩)]

/-- Claim C3 (code bug): the skip phases do NOT terminate on every input.
On an input with no quote character (e.g. CREATE TABLE users (id int))
the skip-to-quote loop of parseTableName never stops — peek() returns the
sentinel 0 at end of input, 0 is not a quote, and next() no longer
advances — and likewise the skip-to-( loop of parseTableFields never
stops when no '(' remains: for every fuel bound the directly-modelled
loop is still running.  The totalized parser maps exactly these runs to
the errNontermination marker. -/
theorem C3_skip_divergence :
    (∀ n, skipLoop isQuoteChar n c3S = none) ∧
    (∀ n, skipLoop isOpenParen n c3Rest = none) ∧
    parseDDL [c3S] = .error errNontermination ∧
    parseDDL [c3T] = .error errNontermination := by
  refine ⟨?_, ?_, by rfl, by rfl⟩
  · intro n
    exact skipLoop_none_of_no_stop isQuoteChar (by decide) n c3S (by decide)
  · intro n
    exact skipLoop_none_of_no_stop isOpenParen (by decide) n c3Rest (by decide)

/-- Claim C4 (amended): parseTableFields fails with the
Unterminated-Table-Definition error exactly when the scanner reports the
sentinel 0 — end of input, or a NUL character which the scanner cannot
distinguish from it — while the bracket-nesting counter is still
positive.  As literally stated (end of input only) the claim fails on a
NUL character, see C4_unterminated_cex. -/
theorem C4_unterminated_iff (pre body : Str) (hp : ∀ c ∈ pre, isOpenParen c = false) :
    parseTableFields (pre ++ '(' :: body) = .error errUnterminatedTable ↔
      terminatesScan body 1 = false := by
  rw [parseTableFields_skip pre body hp]
  exact fieldsLoop_error_iff body 1 [] []

/-- Witness for C4_unterminated_iff at a concrete input. -/
theorem C4_unterminated_iff_witness :
    (∀ c ∈ ([] : Str), isOpenParen c = false) ∧
      (parseTableFields ([] ++ '(' :: c4Body) = .error errUnterminatedTable ↔
        terminatesScan c4Body 1 = false) :=
  ⟨by decide, C4_unterminated_iff [] c4Body (by decide)⟩

/-- Counterexample to C4 as stated: on the body `a` INT<NUL>) the
parenthesis nesting does return to zero before end of input
(bracketCloses is true), yet parseTableFields fails with the
Unterminated-Table-Definition error at the NUL character. -/
theorem C4_unterminated_cex :
    parseTableFields c4In = .error errUnterminatedTable ∧ bracketCloses c4Body 1 = true :=
  ⟨by rfl, by rfl⟩

/-- Claim C5 (amended): for a recognized column entry whose remainder
(tokens from the third onward, space-joined) contains DEFAULT in any
letter case, the recorded default value is obtained by splitting the
remainder on the first case-sensitive occurrence of DEFAULT (none when
only a differently-cased occurrence exists), trimming the text after it,
leaving it absent when it equals NULL case-insensitively, and otherwise
stripping ALL leading and trailing parenthesis characters (not one
layer); see C5_default_cex for the two deviations from the literal
claim. -/
theorem C5_default_extraction (f p0 p1 : Str) (ps : List Str)
    (hft : goFields (trimSpace f) = p0 :: p1 :: ps)
    (hcl : clauseSkip (trimSpace f) = false)
    (hdef : strContains (toUpperStr (joinSep [' '] ps)) kwDEFAULT = true) :
    ∃ c, parseColumnField f = some c ∧
      c.DefaultValueValue = expectedDefault (joinSep [' '] ps) := by
  refine ⟨mkColumnGo p0 p1 ps, ?_, ?_⟩
  · simp only [parseColumnField, hcl, Bool.false_eq_true, if_false, hft]
  · simp only [mkColumnGo, expectedDefault]
    rw [if_pos hdef]
    cases hsp : splitFirst kwDEFAULT (joinSep [' '] ps) with
    | none => rfl
    | some p =>
      obtain ⟨b4, after⟩ := p
      rfl

/-- Witness for C5_default_extraction at `id` INTEGER NOT NULL DEFAULT 0. -/
theorem C5_default_extraction_witness :
    goFields (trimSpace c5wF) =
      "`id`".data :: "INTEGER".data ::
        [ "NOT".data, "NULL".data, "DEFAULT".data, "0".data] ∧
    clauseSkip (trimSpace c5wF) = false ∧
    strContains (toUpperStr (joinSep [' ']
      [ "NOT".data, "NULL".data, "DEFAULT".data, "0".data])) kwDEFAULT = true ∧
    (∃ c, parseColumnField c5wF = some c ∧
      c.DefaultValueValue = expectedDefault (joinSep [' ']
        [ "NOT".data, "NULL".data, "DEFAULT".data, "0".data])) := by
  refine ⟨by decide, by decide, by decide, ?_⟩
  exact C5_default_extraction c5wF ( "`id`".data) ( "INTEGER".data)
    [ "NOT".data, "NULL".data, "DEFAULT".data, "0".data] (by decide) (by decide) (by decide)

/-- Counterexample to C5 as stated: for `a` INT DEFAULT ((7)) the code
records 7 — all surrounding parenthesis characters stripped — not (7) as
one-layer stripping would give; and for `a` INT default 5 (lower-case
default) the case-insensitive containment check passes but the
case-sensitive split finds nothing, so no default is recorded at all. -/
theorem C5_default_cex :
    (parseColumnField c5F1).map ColumnType.DefaultValueValue = some (some [ '7' ]) ∧
    (parseColumnField c5F1).map ColumnType.DefaultValueValue ≠ some (some ( "(7)".data)) ∧
    (parseColumnField c5F2).map ColumnType.DefaultValueValue = some none := by
  refine ⟨by rfl, by decide, by rfl⟩

/-- Claim C6 (amended): for a recognized column entry whose declared type
contains '(', the interpreter splits on the first '(' and trims trailing
')' characters from the piece after it; only when that piece parses as an
integer does it record the numeric length and strip the base type — when
it does not parse, the stored data type keeps the parenthesized suffix as
written and the length is left absent.  The type-as-written field always
keeps the full string.  See C6_type_length_cex. -/
theorem C6_type_length (f p0 p1 : Str) (ps : List Str)
    (hft : goFields (trimSpace f) = p0 :: p1 :: ps)
    (hcl : clauseSkip (trimSpace f) = false)
    (hpar : strContains p1 [ '(' ] = true) :
    ∃ c, parseColumnField f = some c ∧ c.ColumnTypeValue = some p1 ∧
      (c.DataTypeValue, c.LengthValue) =
        (some (expectedTypeLen p1).1, (expectedTypeLen p1).2) := by
  refine ⟨mkColumnGo p0 p1 ps, ?_, ?_, ?_⟩
  · simp only [parseColumnField, hcl, Bool.false_eq_true, if_false, hft]
  · simp only [mkColumnGo]
  · simp only [mkColumnGo, expectedTypeLen]
    rw [if_pos hpar]

/-- Witness for C6_type_length at `n` VARCHAR(255). -/
theorem C6_type_length_witness :
    goFields (trimSpace c6wF) = "`n`".data :: "VARCHAR(255)".data :: [] ∧
    clauseSkip (trimSpace c6wF) = false ∧
    strContains ( "VARCHAR(255)".data) [ '(' ] = true ∧
    (∃ c, parseColumnField c6wF = some c ∧
      c.ColumnTypeValue = some ( "VARCHAR(255)".data) ∧
      (c.DataTypeValue, c.LengthValue) =
        (some (expectedTypeLen ( "VARCHAR(255)".data)).1,
          (expectedTypeLen ( "VARCHAR(255)".data)).2)) := by
  refine ⟨by decide, by decide, by decide, ?_⟩
  exact C6_type_length c6wF ( "`n`".data) ( "VARCHAR(255)".data) [] (by decide) (by decide)
    (by decide)

/-- Counterexample to C6 as stated: for `a` DECIMAL(10,2) the inner text
10,2 does not parse as an integer, and the code then leaves the stored
data type as the full DECIMAL(10,2) — the parenthesized part is NOT
stripped — with the length absent. -/
theorem C6_type_length_cex :
    (parseColumnField c6F).map ColumnType.DataTypeValue = some (some ( "DECIMAL(10,2)".data)) ∧
    (parseColumnField c6F).map ColumnType.DataTypeValue ≠ some (some ( "DECIMAL".data)) ∧
    (parseColumnField c6F).map ColumnType.LengthValue = some none := by
  refine ⟨by rfl, by decide, by rfl⟩

theorem addConstraintFields_no_match (nm sqlStr : Str) :
    ∀ fs : List Str, (∀ f ∈ fs, isConstraintMatch f nm = false) →
      addConstraintFields nm sqlStr fs = fs ++ [sqlStr] := by
  intro fs
  induction fs with
  | nil => intro _; rfl
  | cons f fs2 ih =>
    intro hall
    simp only [addConstraintFields, hall f (List.mem_cons_self ..), Bool.false_eq_true, if_false]
    rw [ih (fun g hg => hall g (List.mem_cons_of_mem _ hg))]
    rfl

theorem addConstraintFields_first_match (nm sqlStr : Str) :
    ∀ (pre : List Str) (f : Str) (post : List Str),
      (∀ g ∈ pre, isConstraintMatch g nm = false) → isConstraintMatch f nm = true →
      addConstraintFields nm sqlStr (pre ++ f :: post) = pre ++ sqlStr :: post := by
  intro pre
  induction pre with
  | nil =>
    intro f post _ hf
    simp only [List.nil_append, addConstraintFields, hf, if_true]
  | cons g pre2 ih =>
    intro f post hall hf
    simp only [List.cons_append, List.append_eq, addConstraintFields,
      hall g (List.mem_cons_self ..), Bool.false_eq_true, if_false]
    rw [ih f post (fun x hx => hall x (List.mem_cons_of_mem _ hx)) hf]

theorem removeColumnFields_no_match (nm : Str) :
    ∀ fs : List Str, (∀ f ∈ fs, colNameMatches f nm = false) →
      removeColumnFields nm fs = (fs, false) := by
  intro fs
  induction fs with
  | nil => intro _; rfl
  | cons f fs2 ih =>
    intro hall
    simp only [removeColumnFields, hall f (List.mem_cons_self ..), Bool.false_eq_true, if_false]
    rw [ih (fun g hg => hall g (List.mem_cons_of_mem _ hg))]

theorem removeColumnFields_first_match (nm : Str) :
    ∀ (pre : List Str) (f : Str) (post : List Str),
      (∀ g ∈ pre, colNameMatches g nm = false) → colNameMatches f nm = true →
      removeColumnFields nm (pre ++ f :: post) = (pre ++ post, true) := by
  intro pre
  induction pre with
  | nil =>
    intro f post _ hf
    simp only [List.nil_append, removeColumnFields, hf, if_true]
  | cons g pre2 ih =>
    intro f post hall hf
    simp only [List.cons_append, List.append_eq, removeColumnFields,
      hall g (List.mem_cons_self ..), Bool.false_eq_true, if_false]
    rw [ih f post (fun x hx => hall x (List.mem_cons_of_mem _ hx)) hf]

/-- Claim C7 (amended): renameTable(newName, oldName) succeeds exactly
when the backtick-quoted old name occurs in the header AND the new name
differs from the old.  As literally stated — success whenever the old
name is present — the claim fails when newName = oldName, since the
replacement then leaves the header unchanged and the operation reports
Rename-Target-Not-Found (see C7_rename_cex); on failure the header is
unchanged by construction. -/
theorem C7_rename_iff (d : ddl) (dst src : Str) :
    (d.renameTable dst src).isOk = true ↔
      (strContains d.head (bqC :: src ++ [bqC]) = true ∧ dst ≠ src) := by
  simp only [ddl.renameTable]
  by_cases heq : replaceFirst (bqC :: src ++ [bqC]) (bqC :: dst ++ [bqC]) d.head = d.head
  · rw [if_pos heq]
    constructor
    · intro h; cases h
    · rintro ⟨hcon, hne⟩
      exfalso
      have hpatne : (bqC :: src ++ [bqC] : Str) ≠ (bqC :: dst ++ [bqC] : Str) := by
        intro hp
        injection hp with h1 h2
        have hlen : src.length = dst.length := by
          have hc := congrArg List.length h2
          simp only [List.append_eq, List.length_append] at hc
          omega
        exact hne ((List.append_inj h2 hlen).1.symm)
      exact replaceFirst_ne_of_contains _ _ hpatne d.head hcon heq
  · rw [if_neg heq]
    constructor
    · intro _
      constructor
      · by_contra hnc
        have hfalse : strContains d.head (bqC :: src ++ [bqC]) = false :=
          Bool.eq_false_iff.mpr hnc
        exact heq (replaceFirst_of_not_contains _ _ _ hfalse)
      · intro hds
        subst hds
        exact heq (replaceFirst_self _ _)
    · intro _
      rfl

/-- Counterexample to C7 as stated: with header CREATE TABLE `users` the
backtick-quoted name users is present, yet renameTable("users","users")
fails, because the substitution leaves the header unchanged. -/
theorem C7_rename_cex :
    strContains c7D.head (bqC :: "users".data ++ [bqC]) = true ∧
      (c7D.renameTable ( "users".data) ( "users".data)).isOk = false :=
  ⟨by decide, by rfl⟩

/-- Claim C8: addConstraint(name, sqlText) is an upsert.  When no field
both starts with CONSTRAINT (case-insensitively) and contains name, the
text is appended as a new last field; when some field matches, the first
such field's text is replaced and nothing is added — in both cases all
other entries and their order are untouched. -/
theorem C8_addConstraint_upsert (nm sqlStr : Str) :
    (∀ d : ddl, (∀ f ∈ d.fields, isConstraintMatch f nm = false) →
      d.addConstraint nm sqlStr = ⟨d.head, d.fields ++ [sqlStr], d.columns⟩) ∧
    (∀ (d : ddl) (pre post : List Str) (f : Str),
      d.fields = pre ++ f :: post →
      (∀ g ∈ pre, isConstraintMatch g nm = false) →
      isConstraintMatch f nm = true →
      d.addConstraint nm sqlStr = ⟨d.head, pre ++ sqlStr :: post, d.columns⟩) := by
  constructor
  · intro d hall
    simp only [ddl.addConstraint]
    rw [addConstraintFields_no_match nm sqlStr d.fields hall]
  · intro d pre post f hfld hall hf
    simp only [ddl.addConstraint, hfld]
    rw [addConstraintFields_first_match nm sqlStr pre f post hall hf]

/-- Witness for C8_addConstraint_upsert on the spec's own example. -/
theorem C8_addConstraint_upsert_witness :
    isConstraintMatch ( "CONSTRAINT `uq_name` UNIQUE(`name`)".data) ( "uq_name".data) = true ∧
    ddl.addConstraint
      ⟨ "CREATE TABLE `t`".data, [ "CONSTRAINT `uq_name` UNIQUE(`name`)".data], []⟩
      ( "uq_name".data) ( "NEW".data) =
      ⟨ "CREATE TABLE `t`".data, [ "NEW".data], []⟩ ∧
    (∀ f ∈ [ "CONSTRAINT `uq_name` UNIQUE(`name`)".data],
      isConstraintMatch f ( "uq_other".data) = false) ∧
    ddl.addConstraint
      ⟨ "CREATE TABLE `t`".data, [ "CONSTRAINT `uq_name` UNIQUE(`name`)".data], []⟩
      ( "uq_other".data) ( "NEW".data) =
      ⟨ "CREATE TABLE `t`".data,
        [ "CONSTRAINT `uq_name` UNIQUE(`name`)".data, "NEW".data], []⟩ := by
  refine ⟨by decide, ?_, by decide, ?_⟩
  · exact (C8_addConstraint_upsert ( "uq_name".data) ( "NEW".data)).2
      ⟨ "CREATE TABLE `t`".data, [ "CONSTRAINT `uq_name` UNIQUE(`name`)".data], []⟩
      [] [] ( "CONSTRAINT `uq_name` UNIQUE(`name`)".data) rfl
      (by intro g hg; cases hg) (by decide)
  · exact (C8_addConstraint_upsert ( "uq_other".data) ( "NEW".data)).1
      ⟨ "CREATE TABLE `t`".data, [ "CONSTRAINT `uq_name` UNIQUE(`name`)".data], []⟩
      (by decide)

/-- Claim C9: removeColumn(name) removes the first field whose first
whitespace token, stripped of surrounding quote characters, equals name,
returning true; with no matching field it returns false and leaves the
field list (and the whole model) unchanged. -/
theorem C9_removeColumn (nm : Str) :
    (∀ d : ddl, (∀ f ∈ d.fields, colNameMatches f nm = false) →
      d.removeColumn nm = (d, false)) ∧
    (∀ (d : ddl) (pre post : List Str) (f : Str),
      d.fields = pre ++ f :: post →
      (∀ g ∈ pre, colNameMatches g nm = false) →
      colNameMatches f nm = true →
      d.removeColumn nm = (⟨d.head, pre ++ post, d.columns⟩, true)) := by
  constructor
  · intro d hall
    simp only [ddl.removeColumn]
    rw [removeColumnFields_no_match nm d.fields hall]
  · intro d pre post f hfld hall hf
    simp only [ddl.removeColumn, hfld]
    rw [removeColumnFields_first_match nm pre f post hall hf]

/-- Witness for C9_removeColumn: removing an absent ghost column reports
false and changes nothing; removing a present one reports true. -/
theorem C9_removeColumn_witness :
    (∀ f ∈ [ "`id` INT".data], colNameMatches f ( "ghost".data) = false) ∧
    ddl.removeColumn ⟨ "CREATE TABLE `t`".data, [ "`id` INT".data], []⟩ ( "ghost".data) =
      (⟨ "CREATE TABLE `t`".data, [ "`id` INT".data], []⟩, false) ∧
    colNameMatches ( "`id` INT".data) ( "id".data) = true ∧
    ddl.removeColumn ⟨ "CREATE TABLE `t`".data, [ "`id` INT".data], []⟩ ( "id".data) =
      (⟨ "CREATE TABLE `t`".data, [], []⟩, true) := by
  refine ⟨by decide, ?_, by decide, ?_⟩
  · exact (C9_removeColumn ( "ghost".data)).1
      ⟨ "CREATE TABLE `t`".data, [ "`id` INT".data], []⟩ (by decide)
  · exact (C9_removeColumn ( "id".data)).2
      ⟨ "CREATE TABLE `t`".data, [ "`id` INT".data], []⟩ [] [] ( "`id` INT".data) rfl
      (by intro g hg; cases hg) (by decide)

/-- Claim C10 (implicit): a field entry with exactly one whitespace token
that is not a PRIMARY KEY / CHECK / CONSTRAINT clause and does not contain
GENERATED ALWAYS AS is included by getColumns — its stripped name,
backtick-quoted — even though the column interpreter skips entries with
fewer than two tokens; so getColumns can return strictly more names than
there are column descriptors. -/
theorem C10_single_token_field (h : Str) (cols : List ColumnType) (f t : Str)
    (hft : goFields (trimSpace f) = [t])
    (hcl : clauseSkip (trimSpace f) = false)
    (hgen : strContains (toUpperStr (trimSpace f)) kwGENERATED = false) :
    ddl.getColumns ⟨h, [f], cols⟩ = [bqC :: trimBy isQuoteCut t ++ [bqC]] ∧
    parseColumns [f] = [] ∧
    (ddl.getColumns ⟨h, [f], cols⟩).length > (parseColumns [f]).length := by
  have hg : getColumnName f = some (bqC :: trimBy isQuoteCut t ++ [bqC]) := by
    simp only [getColumnName, hcl, hgen, Bool.or_self, Bool.false_eq_true, if_false, hft]
  have hc : parseColumnField f = none := by
    simp only [parseColumnField, hcl, Bool.false_eq_true, if_false, hft]
  have h1 : ddl.getColumns ⟨h, [f], cols⟩ = [bqC :: trimBy isQuoteCut t ++ [bqC]] := by
    simp [ddl.getColumns, hg]
  have h2 : parseColumns [f] = [] := by
    simp [parseColumns, hc]
  refine ⟨h1, h2, ?_⟩
  rw [h1, h2]
  simp

/-- Witness for C10_single_token_field at the one-token field foo. -/
theorem C10_single_token_field_witness :
    goFields (trimSpace c10F) = [ "foo".data] ∧
    clauseSkip (trimSpace c10F) = false ∧
    strContains (toUpperStr (trimSpace c10F)) kwGENERATED = false ∧
    (ddl.getColumns ⟨[], [c10F], []⟩ = [bqC :: trimBy isQuoteCut ( "foo".data) ++ [bqC]] ∧
     parseColumns [c10F] = [] ∧
     (ddl.getColumns ⟨[], [c10F], []⟩).length > (parseColumns [c10F]).length) := by
  refine ⟨by decide, by decide, by decide, ?_⟩
  exact C10_single_token_field [] [] c10F ( "foo".data) (by decide) (by decide) (by decide)
